import Mathlib

/-!
Verification of the CabanaMD long-range electrostatics solvers (direct Ewald
and smooth particle mesh Ewald) against their natural-language specification.

The development shallowly embeds the two source files:
  * `force_ewald_cabana_neigh_impl` (direct Ewald solver `ForceEwald`), and
  * `force_spme_cabana_neigh_impl.h` (SPME solver `ForceSPME` / `TPME`).

Modelling conventions:
  * machine doubles are modelled as exact rationals (`ℚ`) wherever only the
    algebraic structure of the computation matters, and as reals (`ℝ`) where a
    claim genuinely speaks about real analysis (the B-spline derivative);
  * the transcendental library functions (`cos`, `sin`, `exp`, `erfc`, `sqrt`,
    `log`, `pow`) are taken as explicit function parameters of the embedded
    kernels: every property proved here is independent of their values, and
    keeping them abstract keeps the embedding executable;
  * the source constants `PI` and `PI_SQRT` are embedded as the exact decimal
    literals written in the source;
  * Kokkos `parallel_for`/atomic-add accumulation loops are modelled as sums
    over the iteration ranges (the accumulations are order-independent); the
    one loop whose body is *not* order-independent (the TPME self-energy
    `parallel_reduce`, which reads its own running accumulator) is modelled as
    a sequential left fold;
  * the MPI all-reduce is the identity in the single-process model;
  * C++ `throw` is modelled by returning `Except.error`.
-/

/-- Source constant `PI` (exact decimal literal from the source). -/

def PI : ℚ := 3.141592653589793238462643

/-- Source constant `PI_SQRT` (exact decimal literal from the source). -/
def PI_SQRT : ℚ := 1.772453850905516

namespace ForceEwald

/-- Accumulator size chosen by `ForceEwald::compute`:
`n_kvec = (2*k_int+1) * (2*k_int) * (2*k_int+1)` (source line 175). -/
def n_kvec (kint : ℤ) : ℤ := (2 * kint + 1) * (2 * kint) * (2 * kint + 1)

/-- Slot index computed in the partial-sum pass (`partial_sums` lambda):
`(kz+k_int)*(2k_int+1)*(2k_int+1)*(2k_int+1) + (ky+k_int)*(2k_int+1) + (kx+k_int)`. -/
def kidx_partial (kint kx ky kz : ℤ) : ℤ :=
  (kz + kint) * (2 * kint + 1) * (2 * kint + 1) * (2 * kint + 1) +
    (ky + kint) * (2 * kint + 1) + (kx + kint)

/-- Slot index computed in the force/potential pass (`kspace_potential` lambda):
`(kz+k_int)*(2k_int+1)*(2k_int+1) + (ky+k_int)*(2k_int+1) + (kx+k_int)`. -/
def kidx_potential (kint kx ky kz : ℤ) : ℤ :=
  (kz + kint) * (2 * kint + 1) * (2 * kint + 1) +
    (ky + kint) * (2 * kint + 1) + (kx + kint)

/-- The `k·r` value computed in the partial-sum pass (source line 217):
`kr = _kz * x(idx,0) + _ky * x(idx,1) + _kz * x(idx,2)`,
where `_kx`, `_ky`, `_kz` are the three wave-vector components. -/
def kr_partial (kxv kyv kzv x0 x1 x2 : ℚ) : ℚ := kzv * x0 + kyv * x1 + kzv * x2

/-- The dot product of the full wave-vector with the particle position, as the
force/potential pass computes it (source lines 283-284) and as the claim
states it. -/
def kr_dot (kxv kyv kzv x0 x1 x2 : ℚ) : ℚ := kxv * x0 + kyv * x1 + kzv * x2

end ForceEwald

/-- Source constant `PI` as a real number (same decimal literal). -/
noncomputable def PIR : ℝ := 3.141592653589793238462643

namespace ForceEwald

/-- Real-space pair potential contribution of the `force_contribs` lambda
(source line 355): `0.5 * qi * qj * erfc(alpha*d) / d`, added to both
particles of the pair.  `erfc` is the C library function, kept abstract. -/
def pot_contrib (erfc : ℚ → ℚ) (alpha qi qj d : ℚ) : ℚ :=
  0.5 * qi * qj * erfc (alpha * d) / d

/-- Pair distance computed by the `force_contribs` lambda (source lines
348-351): `d = sqrt(dx*dx + dy*dy + dz*dz)` with `dx = x(j,·) - x(idx,·)`.
`sqrt` is the C library function, kept abstract. -/
def pair_d (sqrt : ℚ → ℚ) (xi xj : Fin 3 → ℚ) : ℚ :=
  sqrt ((xj 0 - xi 0) * (xj 0 - xi 0) + (xj 1 - xi 1) * (xj 1 - xi 1) +
    (xj 2 - xi 2) * (xj 2 - xi 2))

/-- Real-space pair force factor of the `force_contribs` lambda (source lines
360-363): `f_fact = qi*qj*(2*sqrt(alpha/PI)*exp(-alpha*d*d) +
erfc(sqrt(alpha)*d)) / (d*d)`; the force added to particle `idx` is
`f_fact * (dx,dy,dz)` and the force added to `j` is its negation.
`erfc` and `exp` are the C library functions, kept abstract; `sqrt` is
`Real.sqrt`. -/
noncomputable def f_factR (erfc exp : ℝ → ℝ) (alpha qi qj d : ℝ) : ℝ :=
  qi * qj * (2 * Real.sqrt (alpha / PIR) * exp (-alpha * d * d) +
    erfc (Real.sqrt alpha * d)) / (d * d)

/-- Magnitude of the pair force applied by `force_contribs`: the factor
`f_fact` times the length `d` of the separation vector `(dx,dy,dz)`. -/
noncomputable def force_mag (erfc exp : ℝ → ℝ) (alpha qi qj d : ℝ) : ℝ :=
  f_factR erfc exp alpha qi qj d * d

/-- The same pair force factor over exact rationals, with all three library
functions (`erfc`, `exp`, `sqrt`) abstract, as used in the embedded compute
pipeline (source lines 360-363). -/
def f_fact (erfc exp sqrt : ℚ → ℚ) (alpha qi qj d : ℚ) : ℚ :=
  qi * qj * (2 * sqrt (alpha / PI) * exp (-alpha * d * d) +
    erfc (sqrt alpha * d)) / (d * d)

end ForceEwald

/-- Stated from the claim's words, for comparison with the source formula:
the analytic negative gradient of the pairwise screened-Coulomb potential
`qi*qj*erfc(alpha*d)/d` with respect to the separation `d`, namely
`qi*qj*(erfc(alpha*d)/d^2 + (2*alpha/sqrt(PI))*exp(-(alpha*d)^2)/d)`
(using `d/dx erfc(x) = -(2/sqrt(PI))*exp(-x^2)`). -/
noncomputable def spec_force_mag (erfc exp : ℝ → ℝ) (alpha qi qj d : ℝ) : ℝ :=
  qi * qj * (erfc (alpha * d) / d ^ 2 +
    2 * alpha / Real.sqrt PIR * exp (-(alpha * d) ^ 2) / d)

namespace TPME

/-- Guarded real-space potential contribution of the TPME all-pairs loop
(source lines 243-248): the screened-Coulomb term is applied only when
`d <= r_max` and `|d| >= 1e-12`, and is zero otherwise. -/
def pot_term (erfc : ℚ → ℚ) (rmax alpha qi qj d : ℚ) : ℚ :=
  if d ≤ rmax ∧ 1 / 1000000000000 ≤ |d| then 0.5 * qi * qj * erfc (alpha * d) / d
  else 0

/-- Denominator of the TPME real-space force factor (source lines 256-257):
`d*d + (|d| <= 1e-12)`, where the comparison contributes `1` when true and
`0` when false. -/
def f_denom (d : ℚ) : ℚ := d * d + (if |d| ≤ 1 / 1000000000000 then 1 else 0)

end TPME

namespace ForceEwald

/-- Solver parameters of one `ForceEwald` instance (`_alpha`, `_r_max`,
`_k_max`). -/
structure Params where
  alpha : ℚ
  r_max : ℚ
  k_max : ℚ
deriving DecidableEq

/-- Source `ForceEwald::init_coeff` (lines 52-58): reads `atof(args[3])`,
`atof(args[4])`, `atof(args[5])` into block-local variables `alpha`, `rmax`,
`kmax` and returns; no solver member is assigned.  `args n` is the `atof`
value of argument `n`; the returned value is the solver's parameter state
after the call. -/
def init_coeff (prm : Params) (args : ℕ → ℚ) : Params :=
  let _alpha := args 3
  let _rmax := args 4
  let _kmax := args 5
  prm

/-- The `calc_Uself` lambda of `ForceEwald::compute` (source lines 401-407):
for every `idx < N_max`, `p(idx) += -alpha / PI_SQRT * q(idx) * q(idx)`. -/
def calc_Uself (alpha : ℚ) (q p : ℕ → ℚ) (Nmax : ℕ) : ℕ → ℚ :=
  fun idx => if idx < Nmax then p idx + -alpha / PI_SQRT * q idx * q idx else p idx

end ForceEwald

namespace TPME

/-- Self-energy `parallel_reduce` of `TPME::compute` (source lines 486-494),
modelled as a sequential fold with a single reduction accumulator: for each
index in order, `Uself_part += -alpha / PI_SQRT * q(idx) * q(idx)` and then
`p(idx) += Uself_part` (the body adds the *running partial sum*, not the
particle's own term, to the potential).  Returns the updated potential array
and the reduced `Uself`. -/
def self_energy (alpha : ℚ) (q p : ℕ → ℚ) (n : ℕ) : (ℕ → ℚ) × ℚ :=
  (List.range n).foldl
    (fun st idx =>
      let part := st.2 + -alpha / PI_SQRT * q idx * q idx
      (Function.update st.1 idx (st.1 idx + part), part))
    (p, 0)

end TPME

namespace ForceSPME

/-- Source `ForceSPME::tune` (lines 58-80).  `log`, `sqrt` and `powf` are the
C library functions `log`, `sqrt`, `pow`, kept abstract; `ratioKR` is the
source constant `EXECUTION_TIME_RATIO_K_R = 2`; `lx` is the cubic domain
edge.  The first two assignments to `_alpha` and `_k_max` are dead (they are
overwritten below), and are kept here as `_alpha0`, `_kmax0`.  The non-cubic
`throw` is modelled as `Except.error`; the result is the final
`(_alpha, _k_max, _r_max)`. -/
def tune (log sqrt : ℚ → ℚ) (powf : ℚ → ℚ → ℚ) (accuracy : ℚ) (N : ℕ)
    (domx domy domz : ℚ) : Except String (ℚ × ℚ × ℚ) :=
  if domx ≠ domy ∨ domx ≠ domz then
    Except.error "SPME needs symmetric system size for now."
  else
    let lx := domx
    let ratioKR : ℚ := 2
    let p := -log accuracy
    let _alpha0 := powf ratioKR (1 / 6) * sqrt (p / PI) * powf (N : ℚ) (1 / 6) / lx
    let _kmax0 :=
      powf ratioKR (1 / 6) * sqrt (p / PI) * powf (N : ℚ) (1 / 6) / lx * 2 * PI
    let rmax := powf ratioKR (1 / 6) * sqrt (p / PI) / powf (N : ℚ) (1 / 6) * lx
    let alpha := sqrt p / rmax
    let kmax := 2 * sqrt p * alpha
    Except.ok (alpha, kmax, rmax)

end ForceSPME

namespace TPME

/-- Source `TPME::oneDspline` (lines 89-106): the shifted 1-D cubic cardinal
B-spline, piecewise `x^3/6` on `[0,1)`, `-x^3/2 + 2x^2 - 2x + 2/3` on
`[1,2]`, and `0` elsewhere (in particular for negative arguments). -/
def oneDspline (x : ℚ) : ℚ :=
  if 0 ≤ x ∧ x < 1 then 1 / 6 * x * x * x
  else if 1 ≤ x ∧ x ≤ 2 then -(1 / 2) * x * x * x + 2 * x * x - 2 * x + 2 / 3
  else 0

/-- Source `TPME::oneDsplinederiv` (lines 111-134): sets `x = 2 - |origx|`
and `forcedir = -1` for negative `origx` (else `1`), then returns
`x^2/2 * forcedir` on `[0,1)`, `(-3x^2/2 + 4x - 2) * forcedir` on `[1,2]`,
`0` elsewhere. -/
def oneDsplinederiv (origx : ℚ) : ℚ :=
  let x := 2 - |origx|
  let forcedir : ℚ := if origx < 0 then -1 else 1
  if 0 ≤ x ∧ x < 1 then 1 / 2 * x * x * forcedir
  else if 1 ≤ x ∧ x ≤ 2 then (-(3 / 2) * x * x + 4 * x - 2) * forcedir
  else 0

/-- Guarded real-space force factor of the TPME all-pairs loop (source lines
249-257): the cutoff/zero-separation comparison enters as a `0/1` factor,
and the denominator is the guarded `f_denom`. -/
def f_fact (erfc exp sqrt : ℚ → ℚ) (rmax alpha qi qj d : ℚ) : ℚ :=
  (if d ≤ rmax ∧ 1 / 1000000000000 ≤ |d| then (1 : ℚ) else 0) * qi * qj *
    (2 * sqrt (alpha / PI) * exp (-alpha * d * d) + erfc (sqrt alpha * d)) /
    f_denom d

/-- Source `TPME::oneDeuler` (lines 143-163): norm of the 1-D Euler spline,
with the loop `l = 0,1,2` contributing `oneDspline(fmin(4-(l+1), l+1))`
times the split complex exponential.  `cos` and `sin` are the C library
functions, kept abstract. -/
def oneDeuler (cos sin : ℚ → ℚ) (k meshwidth : ℕ) : ℚ :=
  let denomreal := ∑ l in Finset.range 3,
    oneDspline (min (4 - ((l : ℚ) + 1)) ((l : ℚ) + 1)) *
      cos (2 * PI * (k : ℚ) * (l : ℚ) / (meshwidth : ℚ))
  let denomimag := ∑ l in Finset.range 3,
    oneDspline (min (4 - ((l : ℚ) + 1)) ((l : ℚ) + 1)) *
      sin (2 * PI * (k : ℚ) * (l : ℚ) / (meshwidth : ℚ))
  let numreal := cos (2 * PI * 3 * (k : ℚ) / (meshwidth : ℚ))
  let numimag := sin (2 * PI * 3 * (k : ℚ) / (meshwidth : ℚ))
  (numreal * numreal + numimag * numimag) /
    (denomreal * denomreal + denomimag * denomimag)

/-- Per-axis minimum-image distance of the `spread_q` lambda (source lines
292-311): the smallest of the distances to the particle and to its periodic
images shifted by `±1` (the domain length is hard-coded as `1.0` there). -/
def spread_axis_dist (m r : ℚ) : ℚ :=
  min (min |m - r| |m - (r + 1)|) |m - (r - 1)|

/-- One particle's contribution to one mesh point in the `spread_q` lambda
(source lines 313-321): if all three axis distances are within two mesh
spacings, the charge times the product of the three 1-D spline weights
`oneDspline(2 - dist/spacing)`; otherwise nothing. -/
def spread_contrib (spacing mx my mz rx ry rz qp : ℚ) : ℚ :=
  let xdist := spread_axis_dist mx rx
  let ydist := spread_axis_dist my ry
  let zdist := spread_axis_dist mz rz
  if xdist ≤ 2 * spacing ∧ ydist ≤ 2 * spacing ∧ zdist ≤ 2 * spacing then
    qp * oneDspline (2 - xdist / spacing) * oneDspline (2 - ydist / spacing) *
      oneDspline (2 - zdist / spacing)
  else 0

/-- Per-axis signed distance of the `gather_f` lambda (source lines 516-559):
starts from `closestpart = r`, then may replace it by `r+1` and then by
`r-1`, both times comparing against the distance of the *original* choice,
and returns `closestpart - meshr`. -/
def gather_dist (m r : ℚ) : ℚ :=
  let xdist := r - m
  let c1 := if |xdist| > |m - (r + 1)| then r + 1 else r
  let c2 := if |xdist| > |m - (r - 1)| then r - 1 else c1
  c2 - m

/-- One entry of the `BC` structure-factor array (source lines 343-400), for
mesh indices `(kx,ky,kz)`: zero at the origin, otherwise the product of
three 1-D Euler splines times the Gaussian screening factor, with the
wave-vector components shifted by `meshwidth` when above `meshwidth/2`. -/
def BCval (cos sin exp : ℚ → ℚ) (alpha lx ly lz : ℚ) (meshwidth kx ky kz : ℕ) :
    ℚ × ℚ :=
  if 0 < kx + ky + kz then
    let mx : ℚ := if (meshwidth : ℚ) / 2 < (kx : ℚ) then (kx : ℚ) - meshwidth else kx
    let my : ℚ := if (meshwidth : ℚ) / 2 < (ky : ℚ) then (ky : ℚ) - meshwidth else ky
    let mz : ℚ := if (meshwidth : ℚ) / 2 < (kz : ℚ) then (kz : ℚ) - meshwidth else kz
    let m2 := mx * mx + my * my + mz * mz
    (oneDeuler cos sin kx meshwidth * oneDeuler cos sin ky meshwidth *
        oneDeuler cos sin kz meshwidth * exp (-PI * PI * m2 / (alpha * alpha)) /
        (PI * lx * ly * lz * m2),
      0)
  else (0, 0)

/-- Inputs of `TPME::compute` that the solver only reads: the C math library
(`cos`, `sin`, `erfc`, `exp`, `sqrt`), the external FFT backend (`fftBack`
is the inverse 3D transform, `fftFwd` the forward one), the solver
parameters, the domain edges, the particle count and read-only particle
slices, and the mesh geometry (`meshwidth` is the value the source computes
as `round(pow(meshsize, 1/3))`). -/
structure In where
  cos : ℚ → ℚ
  sin : ℚ → ℚ
  erfc : ℚ → ℚ
  exp : ℚ → ℚ
  sqrt : ℚ → ℚ
  fftBack : (ℕ → ℚ × ℚ) → ℕ → ℚ × ℚ
  fftFwd : (ℕ → ℚ × ℚ) → ℕ → ℚ × ℚ
  alpha : ℚ
  r_max : ℚ
  eps_r : ℚ
  domx : ℚ
  domy : ℚ
  domz : ℚ
  n_max : ℕ
  x : ℕ → Fin 3 → ℚ
  q : ℕ → ℚ
  meshsize : ℕ
  meshwidth : ℕ
  meshr : ℕ → Fin 3 → ℚ

/-- The `init_p` lambda of `TPME::compute` (source lines 197-207), potential
part: `p(idx) = 0` for every `idx < n_max`. -/
def init_p (nmax : ℕ) (p : ℕ → ℚ) : ℕ → ℚ :=
  fun idx => if idx < nmax then 0 else p idx

/-- The `init_p` lambda of `TPME::compute` (source lines 197-207), force
part: all three components zeroed for every `idx < n_max`. -/
def init_f (nmax : ℕ) (f : ℕ → Fin 3 → ℚ) : ℕ → Fin 3 → ℚ :=
  fun idx dim => if idx < nmax then 0 else f idx dim

/-- Body of `TPME::compute` after the cubic-domain check (source lines
175-606), modelled stage by stage in source order; parallel accumulation
loops become sums over their iteration ranges, and the self-energy
`parallel_reduce` is the sequential fold `self_energy`.  Returns the updated
potential array, force array, mesh charge array, and the returned
`total_energy` (`Udip` is never assigned in the source and is modelled as
zero). -/
def run (I : In) (p : ℕ → ℚ) (f : ℕ → Fin 3 → ℚ) (meshq : ℕ → ℚ) :
    (ℕ → ℚ) × (ℕ → Fin 3 → ℚ) × (ℕ → ℚ) × ℚ :=
  let lx := I.domx
  let ly := I.domy
  let lz := I.domz
  -- init_p lambda (lines 197-207)
  let p0 : ℕ → ℚ := init_p I.n_max p
  let f0 : ℕ → Fin 3 → ℚ := init_f I.n_max f
  -- real-space all-pairs loop (lines 213-276)
  let pershells : ℤ := ⌈I.r_max / lx⌉
  let shifts := Finset.Icc (-pershells) pershells ×ˢ
    (Finset.Icc (-pershells) pershells ×ˢ Finset.Icc (-pershells) pershells)
  let rs_d : ℕ → ℕ → ℤ × (ℤ × ℤ) → ℚ := fun i j s =>
    let dx := I.x i 0 - (I.x j 0 + (s.2.2 : ℚ) * lx)
    let dy := I.x i 1 - (I.x j 1 + (s.2.1 : ℚ) * ly)
    let dz := I.x i 2 - (I.x j 2 + (s.1 : ℚ) * lz)
    I.sqrt (dx * dx + dy * dy + dz * dz)
  let Ur_inner : ℕ → ℚ := fun i =>
    ∑ j in Finset.range I.n_max, ∑ s in shifts,
      pot_term I.erfc I.r_max I.alpha (I.q i) (I.q j) (rs_d i j s)
  let p1 : ℕ → ℚ := fun i => p0 i + (if i < I.n_max then Ur_inner i else 0)
  let f1 : ℕ → Fin 3 → ℚ := fun i dim =>
    f0 i dim + (if i < I.n_max then
      ∑ j in Finset.range I.n_max, ∑ s in shifts,
        (let dx := I.x i 0 - (I.x j 0 + (s.2.2 : ℚ) * lx)
         let dy := I.x i 1 - (I.x j 1 + (s.2.1 : ℚ) * ly)
         let dz := I.x i 2 - (I.x j 2 + (s.1 : ℚ) * lz)
         f_fact I.erfc I.exp I.sqrt I.r_max I.alpha (I.q i) (I.q j) (rs_d i j s) *
           ![dx, dy, dz] dim)
      else 0)
  let Ur : ℚ := ∑ i in Finset.range I.n_max, Ur_inner i
  -- charge spreading (lines 285-326)
  let spacing := I.meshr 1 0 - I.meshr 0 0
  let meshq1 : ℕ → ℚ := fun idx =>
    meshq idx + (if idx < I.meshsize then
      ∑ pidx in Finset.range I.n_max,
        spread_contrib spacing (I.meshr idx 0) (I.meshr idx 1) (I.meshr idx 2)
          (I.x pidx 0) (I.x pidx 1) (I.x pidx 2) (I.q pidx)
      else 0)
  -- BC array (lines 343-403), flat index idx = kx + ky*M + kz*M^2
  let M := I.meshwidth
  let BC : ℕ → ℚ × ℚ := fun idx =>
    BCval I.cos I.sin I.exp I.alpha lx ly lz M (idx % M) (idx / M % M) (idx / (M * M))
  -- copy_charge (lines 429-437), inverse FFT (lines 455-457), energy (459-466)
  let Qr : ℕ → ℚ × ℚ := fun idx => (meshq1 idx, 0)
  let Qk := I.fftBack Qr
  let Uk : ℚ := ∑ idx in Finset.range I.meshsize,
    (BC idx).1 * ((Qk idx).1 * (Qk idx).1 + (Qk idx).2 * (Qk idx).2)
  -- update_q (lines 469-476; the source iterates this over n_max, not
  -- meshsize), forward FFT (lines 478-481), Uk *= 0.5 (line 484)
  let Qk2 : ℕ → ℚ × ℚ := fun idx =>
    if idx < I.n_max then ((Qk idx).1 * (BC idx).1, (Qk idx).2 * (BC idx).1)
    else Qk idx
  let Qk3 := I.fftFwd Qk2
  let Uk2 := Uk * 0.5
  -- self-energy reduction (lines 486-494) and total energy (line 495)
  let se := self_energy I.alpha I.q p1 I.n_max
  let p2 := se.1
  let Uself := se.2
  let total := Ur + Uk2 + Uself
  -- gather_f (lines 511-599)
  let f2 : ℕ → Fin 3 → ℚ := fun i dim =>
    f1 i dim + (if i < I.n_max then
      ∑ idx in Finset.range I.meshsize,
        (let xdist := gather_dist (I.meshr idx 0) (I.x i 0)
         let ydist := gather_dist (I.meshr idx 1) (I.x i 1)
         let zdist := gather_dist (I.meshr idx 2) (I.x i 2)
         if |xdist| ≤ 2 * spacing ∧ |ydist| ≤ 2 * spacing ∧ |zdist| ≤ 2 * spacing then
           ![I.q i * oneDsplinederiv (xdist / spacing) *
               oneDspline (2 - |ydist| / spacing) * oneDspline (2 - |zdist| / spacing) *
               (Qk3 idx).1,
             I.q i * oneDspline (2 - |xdist| / spacing) *
               oneDsplinederiv (ydist / spacing) * oneDspline (2 - |zdist| / spacing) *
               (Qk3 idx).1,
             I.q i * oneDspline (2 - |xdist| / spacing) *
               oneDspline (2 - |ydist| / spacing) * oneDsplinederiv (zdist / spacing) *
               (Qk3 idx).1] dim
         else 0)
      else 0)
  (p2, f2, meshq1, total)

/-- Source `TPME::compute` (lines 167-607): the cubic-domain check (lines
169-173) runs before any other statement; its `throw` is modelled as
`Except.error`, so a failed call returns no modified state. -/
def compute (I : In) (p : ℕ → ℚ) (f : ℕ → Fin 3 → ℚ) (meshq : ℕ → ℚ) :
    Except String ((ℕ → ℚ) × (ℕ → Fin 3 → ℚ) × (ℕ → ℚ) × ℚ) :=
  if I.domx ≠ I.domy ∨ I.domx ≠ I.domz then
    Except.error "SPME needs symmetric system size for now."
  else Except.ok (run I p f meshq)

end TPME

namespace ForceEwald

/-- The `init_parameters` lambda of `ForceEwald::compute` (source lines
152-161), potential part: `p(idx) = 0` for every `idx < N_max`. -/
def init_parameters_p (Nmax : ℕ) (p : ℕ → ℚ) : ℕ → ℚ :=
  fun idx => if idx < Nmax then 0 else p idx

/-- The `init_parameters` lambda of `ForceEwald::compute` (source lines
152-161), force part: `f(idx,dim) = 0` for every `idx < N_max` and each of
the three components. -/
def init_parameters_f (Nmax : ℕ) (f : ℕ → Fin 3 → ℚ) : ℕ → Fin 3 → ℚ :=
  fun idx dim => if idx < Nmax then 0 else f idx dim

/-- The wave-vector grid iterated by both k-space passes: all integer
triples with each component in `[-k_int, k_int]`, skipping the central box
`(0,0,0)`. -/
def kgrid (kint : ℤ) : Finset (ℤ × ℤ × ℤ) :=
  (Finset.Icc (-kint) kint ×ˢ (Finset.Icc (-kint) kint ×ˢ Finset.Icc (-kint) kint)).filter
    fun t => ¬(t.1 = 0 ∧ t.2.1 = 0 ∧ t.2.2 = 0)

/-- Inputs of `ForceEwald::compute` that the solver only reads: the C math
library, the solver parameters, the domain edges, the particle counts, the
read-only particle slices, and the half neighbor list (`neighbors idx`
enumerates `getNeighbor(neigh_list, idx, ·)`). -/
structure In where
  cos : ℚ → ℚ
  sin : ℚ → ℚ
  erfc : ℚ → ℚ
  exp : ℚ → ℚ
  sqrt : ℚ → ℚ
  alpha : ℚ
  r_max : ℚ
  eps_r : ℚ
  k_max : ℚ
  lx : ℚ
  ly : ℚ
  lz : ℚ
  N_local : ℕ
  N_max : ℕ
  x : ℕ → Fin 3 → ℚ
  q : ℕ → ℚ
  neighbors : ℕ → List ℕ

/-- The reduced `U_trigonometric` accumulator (source lines 178-244): slot
`m` holds the sum over all particles `idx < N_max` and all wave-vectors of
`q_i * cos(kr)` when the partial-sum pass's slot expression
`2 * kidx_partial` equals `m`, plus `q_i * sin(kr)` when
`2 * kidx_partial + 1` equals `m`; `kr` is the (buggy) `kr_partial` phase of
source line 217.  The single-process `MPI_Allreduce` is the identity. -/
def U_trig (I : In) (kint : ℤ) (m : ℤ) : ℚ :=
  ∑ idx in Finset.range I.N_max, ∑ k in kgrid kint,
    (let kr := kr_partial (2 * PI / I.lx * (k.2.2 : ℚ)) (2 * PI / I.ly * (k.2.1 : ℚ))
        (2 * PI / I.lz * (k.1 : ℚ)) (I.x idx 0) (I.x idx 1) (I.x idx 2)
     (if 2 * kidx_partial kint k.2.2 k.2.1 k.1 = m then I.q idx * I.cos kr else 0) +
       (if 2 * kidx_partial kint k.2.2 k.2.1 k.1 + 1 = m then I.q idx * I.sin kr else 0))

/-- Source `ForceEwald::compute` (lines 79-411), modelled stage by stage in
source order (k-vector triples are `(kz, (ky, kx))` following the loop
nesting); parallel accumulation loops become sums over their iteration
ranges.  Returns the updated potential and force arrays (`compute` returns
`void`; `ForceEwald::compute_energy` returns the constant `0.0`). -/
def compute (I : In) (p : ℕ → ℚ) (f : ℕ → Fin 3 → ℚ) :
    (ℕ → ℚ) × (ℕ → Fin 3 → ℚ) :=
  -- k_int = ceil(k_max) + 1 (line 174)
  let kint : ℤ := ⌈I.k_max⌉ + 1
  -- init_parameters (lines 152-161)
  let p0 := init_parameters_p I.N_max p
  let f0 := init_parameters_f I.N_max f
  -- kspace_potential lambda (lines 251-310)
  let coeff := 4 * PI / (I.lx * I.ly * I.lz)
  let kvec : ℤ × ℤ × ℤ → Fin 3 → ℚ := fun k =>
    ![2 * PI / I.lx * (k.2.2 : ℚ), 2 * PI / I.ly * (k.2.1 : ℚ), 2 * PI / I.lz * (k.1 : ℚ)]
  let p1 : ℕ → ℚ := fun i =>
    p0 i + (if i < I.N_max then
      ∑ k in kgrid kint,
        (let kk := kvec k 0 * kvec k 0 + kvec k 1 * kvec k 1 + kvec k 2 * kvec k 2
         let k_coeff := I.exp (-kk / (4 * I.alpha * I.alpha)) / kk
         let m := kidx_potential kint k.2.2 k.2.1 k.1
         coeff * k_coeff *
           (U_trig I kint (2 * m) * U_trig I kint (2 * m) +
             U_trig I kint (2 * m + 1) * U_trig I kint (2 * m + 1)))
      else 0)
  let f1 : ℕ → Fin 3 → ℚ := fun i dim =>
    f0 i dim + (if i < I.N_max then
      ∑ k in kgrid kint,
        (let kk := kvec k 0 * kvec k 0 + kvec k 1 * kvec k 1 + kvec k 2 * kvec k 2
         let k_coeff := I.exp (-kk / (4 * I.alpha * I.alpha)) / kk
         let kr := kvec k 0 * I.x i 0 + kvec k 1 * I.x i 1 + kvec k 2 * I.x i 2
         let m := kidx_potential kint k.2.2 k.2.1 k.1
         k_coeff * 2 * I.q i * kvec k dim *
           (U_trig I kint (2 * m + 1) * I.cos kr - U_trig I kint (2 * m) * I.sin kr))
      else 0)
  -- force_contribs lambda (lines 335-373); the atomic adds at idx and at
  -- the neighbor j are collected per target index i
  let p2 : ℕ → ℚ := fun i =>
    p1 i + ∑ idx in Finset.range I.N_local,
      ((I.neighbors idx).map fun j =>
        (let d := pair_d I.sqrt (I.x idx) (I.x j)
         let c := pot_contrib I.erfc I.alpha (I.q idx) (I.q j) d
         (if i = idx then c else 0) + (if i = j then c else 0))).sum
  let f2 : ℕ → Fin 3 → ℚ := fun i dim =>
    f1 i dim + ∑ idx in Finset.range I.N_local,
      ((I.neighbors idx).map fun j =>
        (let d := pair_d I.sqrt (I.x idx) (I.x j)
         let ff := f_fact I.erfc I.exp I.sqrt I.alpha (I.q idx) (I.q j) d
         let dv := ![I.x j 0 - I.x idx 0, I.x j 1 - I.x idx 1, I.x j 2 - I.x idx 2]
         (if i = idx then ff * dv dim else 0) +
           (if i = j then -(ff * dv dim) else 0))).sum
  -- calc_Uself (lines 401-407)
  let p3 := calc_Uself I.alpha I.q p2 I.N_max
  (p3, f2)

end ForceEwald

/-- Concrete direct-Ewald compute inputs for the C10 witness: one resident
particle, identity math library, all parameters and the domain edge set to
small constants, no neighbors. -/
def ewaldIn0 : ForceEwald.In :=
  ⟨id, id, id, id, id, 0, 0, 0, 0, 1, 1, 1, 1, 1, fun _ _ => 0, fun _ => 0,
    fun _ => []⟩

/-- Concrete SPME compute inputs for the C10 witness: one resident particle,
a one-point mesh, identity math library and FFT backend. -/
def tpmeIn0 : TPME.In :=
  ⟨id, id, id, id, id, id, id, 1, 1, 1, 1, 1, 1, 1, fun _ _ => 0, fun _ => 0,
    1, 1, fun _ _ => 0⟩

namespace TPME

/-- The per-axis factor of `spread_contrib`: the guarded 1-D spline weight
`oneDspline(2 - dist/spacing)` applied when the axis distance is within two
mesh spacings (`spread_contrib` is the product of three of these and the
charge). -/
def axis_weight (s r m : ℚ) : ℚ :=
  if spread_axis_dist m r ≤ 2 * s then oneDspline (2 - spread_axis_dist m r / s)
  else 0

/-- One coordinate of a particle that sits strictly inside the unit domain,
away from the periodic wrap edge cases: it lies between mesh points `n` and
`n+1` with at least two whole mesh spacings to each domain edge. -/
def interior_coord (M : ℕ) (s coord : ℚ) : Prop :=
  ∃ (n : ℕ) (u : ℚ), coord = ((n : ℚ) + u) * s ∧ 0 ≤ u ∧ u < 1 ∧
    2 ≤ n ∧ n + 3 ≤ M

end TPME

namespace TPME

/-- Source `TPME::oneDspline` over the reals (same piecewise formula as the
rational embedding), for the differentiability claim. -/
noncomputable def oneDsplineR (x : ℝ) : ℝ :=
  if 0 ≤ x ∧ x < 1 then 1 / 6 * x * x * x
  else if 1 ≤ x ∧ x ≤ 2 then -(1 / 2) * x * x * x + 2 * x * x - 2 * x + 2 / 3
  else 0

/-- Source `TPME::oneDsplinederiv` over the reals (same piecewise formula as the
rational embedding). -/
noncomputable def oneDsplinederivR (origx : ℝ) : ℝ :=
  let x := 2 - |origx|
  let forcedir : ℝ := if origx < 0 then -1 else 1
  if 0 ≤ x ∧ x < 1 then 1 / 2 * x * x * forcedir
  else if 1 ≤ x ∧ x ≤ 2 then (-(3 / 2) * x * x + 4 * x - 2) * forcedir
  else 0

end TPME

/-- Truncated-power representation of the centered cubic B-spline: the
spreading weight `oneDsplineR (2 - |u|)` equals this globally smooth
combination of shifted positive-part cubes (a proof device, not source
code). -/
noncomputable def B4 (u : ℝ) : ℝ :=
  ((max (u + 2) 0) ^ 3 - 4 * (max (u + 1) 0) ^ 3 + 6 * (max u 0) ^ 3 -
    4 * (max (u - 1) 0) ^ 3 + (max (u - 2) 0) ^ 3) / 6

/-- Derivative of `B4`: the same combination of positive-part squares. -/
noncomputable def B4d (u : ℝ) : ℝ :=
  (3 * (max (u + 2) 0) ^ 2 - 12 * (max (u + 1) 0) ^ 2 + 18 * (max u 0) ^ 2 -
    12 * (max (u - 1) 0) ^ 2 + 3 * (max (u - 2) 0) ^ 2) / 6

/-- C1: the direct-Ewald partial-sum pass is internally inconsistent with the
force/potential pass.  At `k_int = 1`, for the wave-vector `(kx,ky,kz) =
(0,0,1)`: (i) the partial-sum pass writes slot 58 while the force/potential
pass reads slot 22 for the same wave-vector; (ii) the accumulator holds
`n_kvec = 18` wave-vector slots, not `(2*k_int+1)^3 - 1 = 26` as the claim
states (so the partial-sum write is also out of bounds); (iii) the phase
`k·r` accumulated for the wave-vector `(2π/L)·(1,0,0)` at position `(1,2,3)`
uses the `z` component twice (`_kz*x0 + _ky*x1 + _kz*x2`) and is not the dot
product of the wave-vector with the position. -/
theorem c1_partial_sum_pass_inconsistent :
    ForceEwald.kidx_partial 1 0 0 1 = 58 ∧
    ForceEwald.kidx_potential 1 0 0 1 = 22 ∧
    ForceEwald.kidx_partial 1 0 0 1 ≠ ForceEwald.kidx_potential 1 0 0 1 ∧
    ForceEwald.n_kvec 1 = 18 ∧
    ForceEwald.n_kvec 1 ≠ (2 * 1 + 1) ^ 3 - 1 ∧
    ForceEwald.n_kvec 1 ≤ ForceEwald.kidx_partial 1 0 0 1 ∧
    ForceEwald.kr_partial 1 0 0 1 2 3 = 0 ∧
    ForceEwald.kr_dot 1 0 0 1 2 3 = 1 ∧
    ForceEwald.kr_partial 1 0 0 1 2 3 ≠ ForceEwald.kr_dot 1 0 0 1 2 3 := by
  refine ⟨by decide, by decide, by decide, by decide, by decide, by decide, ?_, ?_, ?_⟩ <;>
    norm_num [ForceEwald.kr_partial, ForceEwald.kr_dot]

/-- C2: the real-space force magnitude does not match the analytic negative
gradient of the pair potential.  At `alpha = 4`, `qi = qj = 1`, `d = 1` the
code evaluates the complementary error function at `sqrt(alpha)*d = 2` and
the exponential at `-alpha*d^2 = -4`, while the analytic negative gradient of
`qi*qj*erfc(alpha*d)/d` evaluates them at `alpha*d = 4` and
`-(alpha*d)^2 = -16`; the arguments disagree (the potential line of the same
kernel uses `erfc(alpha*d)`, so the force line contradicts it). -/
theorem c2_force_not_analytic_gradient :
    ∀ erfc exp : ℝ → ℝ,
      ForceEwald.force_mag erfc exp 4 1 1 1 =
        2 * Real.sqrt (4 / PIR) * exp (-4) + erfc 2 ∧
      spec_force_mag erfc exp 4 1 1 1 =
        erfc 4 + 2 * 4 / Real.sqrt PIR * exp (-16) ∧
      Real.sqrt (4 : ℝ) * 1 = 2 ∧ (4 : ℝ) * 1 = 4 ∧ (2 : ℝ) ≠ 4 ∧
      (-4 : ℝ) * 1 * 1 = -4 ∧ (-((4 : ℝ) * 1) ^ 2) = -16 ∧ (-4 : ℝ) ≠ -16 := by
  have h4 : Real.sqrt (4 : ℝ) = 2 := by
    rw [show (4 : ℝ) = 2 ^ 2 by norm_num]
    exact Real.sqrt_sq (by norm_num)
  intro erfc exp
  refine ⟨?_, ?_, by rw [h4]; norm_num, by norm_num, by norm_num, by norm_num,
    by norm_num, by norm_num⟩
  · unfold ForceEwald.force_mag ForceEwald.f_factR
    rw [show Real.sqrt 4 * 1 = 2 by rw [h4]; norm_num]
    norm_num
  · unfold spec_force_mag
    norm_num

/-- C3: the TPME all-pairs real-space loop is guarded (its potential term
vanishes beyond `r_max` and at zero separation, and its force denominator is
nonzero for every separation), but the direct-Ewald `force_contribs` kernel
is not: it divides by the pair distance with no `r_max` check and no
zero-separation guard, so for two neighbor-list particles at identical
positions the divisor `d = sqrt(0)` is zero, and a delivered pair beyond
`r_max` still contributes. -/
theorem c3_zero_separation_guard (sqrt : ℚ → ℚ) (hsqrt : sqrt 0 = 0) :
    (∀ x : Fin 3 → ℚ, ForceEwald.pair_d sqrt x x = 0) ∧
    (∀ d : ℚ, TPME.f_denom d ≠ 0) ∧
    (∀ erfc alpha qi qj, TPME.pot_term erfc 1 alpha qi qj 0 = 0) ∧
    (∀ erfc alpha qi qj d, 1 < d → TPME.pot_term erfc 1 alpha qi qj d = 0) ∧
    ForceEwald.pot_contrib (fun _ => 1) 1 1 1 2 = 1 / 4 ∧
    ((1 : ℚ) / 4 ≠ 0) := by
  refine ⟨?_, ?_, ?_, ?_, by norm_num [ForceEwald.pot_contrib], by norm_num⟩
  · intro x
    simpa [ForceEwald.pair_d] using hsqrt
  · intro d
    unfold TPME.f_denom
    split_ifs with h
    · intro h0
      nlinarith [mul_self_nonneg d]
    · have hd : d ≠ 0 := by
        intro h0
        exact h (by simp [h0])
      simpa using mul_ne_zero hd hd
  · intro erfc alpha qi qj
    unfold TPME.pot_term
    rw [if_neg]
    simp
  · intro erfc alpha qi qj d hd
    unfold TPME.pot_term
    rw [if_neg]
    intro h
    linarith [h.1]

/-- Witness for C3 at a concrete square root function (`sqrt = id`, which
fixes `0` like the library `sqrt`). -/
theorem c3_zero_separation_guard_witness :
    (∀ x : Fin 3 → ℚ, ForceEwald.pair_d id x x = 0) ∧
    (∀ d : ℚ, TPME.f_denom d ≠ 0) ∧
    (∀ erfc alpha qi qj, TPME.pot_term erfc 1 alpha qi qj 0 = 0) ∧
    (∀ erfc alpha qi qj d, 1 < d → TPME.pot_term erfc 1 alpha qi qj d = 0) ∧
    ForceEwald.pot_contrib (fun _ => 1) 1 1 1 2 = 1 / 4 ∧
    ((1 : ℚ) / 4 ≠ 0) :=
  c3_zero_separation_guard id rfl

/-- C7: `init_coeff` does not install the explicitly supplied parameters.
With solver state `alpha = r_max = k_max = 0` and arguments whose parsed
values are all `1`, the state after `init_coeff` is unchanged (still all
zero) and its `alpha` differs from the parsed `args[3] = 1`. -/
theorem c7_init_coeff_discards_arguments :
    ForceEwald.init_coeff ⟨0, 0, 0⟩ (fun _ => 1) = ⟨0, 0, 0⟩ ∧
    (ForceEwald.init_coeff ⟨0, 0, 0⟩ (fun _ => 1)).alpha ≠ (fun _ => (1 : ℚ)) 3 := by
  exact ⟨rfl, by decide⟩

/-- C4: the direct-Ewald self-energy stage adds exactly
`-alpha/sqrt(PI) * q^2` to each particle, but the TPME self-energy stage adds
the running partial sum.  With two particles of charge `1`, `alpha =
PI_SQRT` (so each self-term is `-1`), and zero initial potential: Ewald
leaves both particles at `-1`, while TPME leaves particle `1` at `-2`
(it receives particle `0`'s term as well); the reduced total is `-2`. -/
theorem c4_tpme_self_energy_adds_partial_sum :
    ForceEwald.calc_Uself PI_SQRT (fun _ => 1) (fun _ => 0) 2 0 = -1 ∧
    ForceEwald.calc_Uself PI_SQRT (fun _ => 1) (fun _ => 0) 2 1 = -1 ∧
    (TPME.self_energy PI_SQRT (fun _ => 1) (fun _ => 0) 2).1 0 = -1 ∧
    (TPME.self_energy PI_SQRT (fun _ => 1) (fun _ => 0) 2).1 1 = -2 ∧
    (TPME.self_energy PI_SQRT (fun _ => 1) (fun _ => 0) 2).2 = -2 ∧
    ((-2 : ℚ) ≠ -1) := by
  refine ⟨?_, ?_, ?_, ?_, ?_, by norm_num⟩ <;>
    norm_num [ForceEwald.calc_Uself, TPME.self_energy, List.range_succ,
      Function.update, PI_SQRT]

/-- C5: on a cubic domain of edge `L`, tuning to accuracy `eps` succeeds and
its final parameters are exactly `p = -log eps`,
`r_max = 2^(1/6) * sqrt(p/PI) / N^(1/6) * L`, `alpha = sqrt(p) / r_max`,
`k_max = 2 * sqrt(p) * alpha` (for every interpretation of the library
`log`, `sqrt`, `pow`). -/
theorem c5_tune_final_values (log sqrt : ℚ → ℚ) (powf : ℚ → ℚ → ℚ)
    (accuracy L : ℚ) (N : ℕ) :
    ForceSPME.tune log sqrt powf accuracy N L L L =
      Except.ok
        (sqrt (-log accuracy) /
            (powf 2 (1 / 6) * sqrt (-log accuracy / PI) / powf (N : ℚ) (1 / 6) * L),
          2 * sqrt (-log accuracy) *
            (sqrt (-log accuracy) /
              (powf 2 (1 / 6) * sqrt (-log accuracy / PI) / powf (N : ℚ) (1 / 6) * L)),
          powf 2 (1 / 6) * sqrt (-log accuracy / PI) / powf (N : ℚ) (1 / 6) * L) := by
  unfold ForceSPME.tune
  rw [if_neg (by simp)]

/-- C6: a non-cubic domain makes both the SPME tuning entry point and the
SPME force-evaluation entry point return the configuration error
`"SPME needs symmetric system size for now."`; the check is the first
statement of each, so the error is raised before any computation and the
failed call returns no modified particle, mesh, or solver-parameter state
(the `Except.error` result carries none). -/
theorem c6_noncubic_is_configuration_error
    (log sqrt : ℚ → ℚ) (powf : ℚ → ℚ → ℚ) (accuracy : ℚ) (N : ℕ)
    (I : TPME.In) (p : ℕ → ℚ) (f : ℕ → Fin 3 → ℚ) (meshq : ℕ → ℚ)
    (h : I.domx ≠ I.domy ∨ I.domx ≠ I.domz) :
    ForceSPME.tune log sqrt powf accuracy N I.domx I.domy I.domz =
      Except.error "SPME needs symmetric system size for now." ∧
    TPME.compute I p f meshq =
      Except.error "SPME needs symmetric system size for now." := by
  constructor
  · unfold ForceSPME.tune
    rw [if_pos h]
  · unfold TPME.compute
    rw [if_pos h]

/-- Witness for C6: a concrete non-cubic domain `(0, 1, 0)`. -/
theorem c6_noncubic_is_configuration_error_witness :
    ForceSPME.tune id id (fun _ _ => 0) 1 1 0 1 0 =
      Except.error "SPME needs symmetric system size for now." ∧
    TPME.compute
        ⟨id, id, id, id, id, id, id, 0, 0, 0, 0, 1, 0, 0, fun _ _ => 0, fun _ => 0,
          0, 0, fun _ _ => 0⟩
        (fun _ => 0) (fun _ _ => 0) (fun _ => 0) =
      Except.error "SPME needs symmetric system size for now." :=
  c6_noncubic_is_configuration_error id id (fun _ _ => 0) 1 1
    ⟨id, id, id, id, id, id, id, 0, 0, 0, 0, 1, 0, 0, fun _ _ => 0, fun _ => 0,
      0, 0, fun _ _ => 0⟩
    (fun _ => 0) (fun _ _ => 0) (fun _ => 0) (Or.inl (by norm_num))

/-- Closed form of the sequential self-energy fold, generalized over the
start state: the reduction accumulator ends at the full sum of self-terms,
and entry `i < n` of the potential receives the running partial sum up to
and including its own term. -/
theorem self_energy_foldl_eq (alpha : ℚ) (q : ℕ → ℚ) :
    ∀ (n : ℕ) (p : ℕ → ℚ) (c : ℚ),
      (List.range n).foldl
          (fun st idx =>
            let part := st.2 + -alpha / PI_SQRT * q idx * q idx
            (Function.update st.1 idx (st.1 idx + part), part)) (p, c) =
        (fun i => if i < n then
            p i + (c + ∑ j in Finset.range (i + 1), -alpha / PI_SQRT * q j * q j)
          else p i,
         c + ∑ j in Finset.range n, -alpha / PI_SQRT * q j * q j) := by
  intro n
  induction n with
  | zero =>
    intro p c
    refine Prod.ext ?_ (by simp)
    funext i
    simp
  | succ n ih =>
    intro p c
    rw [List.range_succ, List.foldl_append, ih p c, List.foldl_cons, List.foldl_nil]
    refine Prod.ext ?_ ?_
    · funext i
      by_cases hin : i = n
      · subst hin
        simp only [Function.update_same, lt_self_iff_false, if_false,
          if_pos (Nat.lt_succ_self i), Finset.sum_range_succ]
        ring
      · simp only [Function.update_noteq hin]
        by_cases hlt : i < n
        · rw [if_pos hlt, if_pos (Nat.lt_succ_of_lt hlt)]
        · rw [if_neg hlt, if_neg (by omega : ¬ i < n + 1)]
    · simp only [Finset.sum_range_succ]
      ring

/-- The potential array after the TPME self-energy stage, entrywise. -/
theorem self_energy_fst (alpha : ℚ) (q p : ℕ → ℚ) (n i : ℕ) :
    (TPME.self_energy alpha q p n).1 i =
      p i + (if i < n then ∑ j in Finset.range (i + 1), -alpha / PI_SQRT * q j * q j
        else 0) := by
  unfold TPME.self_energy
  rw [self_energy_foldl_eq]
  by_cases hi : i < n <;> simp [hi]

/-- The reduced `Uself` of the TPME self-energy stage. -/
theorem self_energy_snd (alpha : ℚ) (q p : ℕ → ℚ) (n : ℕ) :
    (TPME.self_energy alpha q p n).2 =
      ∑ j in Finset.range n, -alpha / PI_SQRT * q j * q j := by
  unfold TPME.self_energy
  rw [self_energy_foldl_eq]
  simp

/-- C10: both compute entry points first overwrite every resident particle's
potential and all three force components with zero (the `init_parameters` /
`init_p` lambdas), and consequently the final potential, the final force
components, and the SPME total energy do not depend on the values those
arrays held at entry. -/
theorem c10_entry_values_do_not_affect_results :
    (∀ (Nmax : ℕ) (p : ℕ → ℚ) (f : ℕ → Fin 3 → ℚ) (i : ℕ) (dim : Fin 3),
        i < Nmax →
        ForceEwald.init_parameters_p Nmax p i = 0 ∧
        ForceEwald.init_parameters_f Nmax f i dim = 0 ∧
        TPME.init_p Nmax p i = 0 ∧ TPME.init_f Nmax f i dim = 0) ∧
    (∀ (I : ForceEwald.In) (p₁ p₂ : ℕ → ℚ) (f₁ f₂ : ℕ → Fin 3 → ℚ)
        (i : ℕ) (dim : Fin 3), i < I.N_max →
        (ForceEwald.compute I p₁ f₁).1 i = (ForceEwald.compute I p₂ f₂).1 i ∧
        (ForceEwald.compute I p₁ f₁).2 i dim = (ForceEwald.compute I p₂ f₂).2 i dim) ∧
    (∀ (I : TPME.In) (meshq : ℕ → ℚ) (p₁ p₂ : ℕ → ℚ) (f₁ f₂ : ℕ → Fin 3 → ℚ)
        (i : ℕ) (dim : Fin 3), i < I.n_max →
        (TPME.run I p₁ f₁ meshq).1 i = (TPME.run I p₂ f₂ meshq).1 i ∧
        (TPME.run I p₁ f₁ meshq).2.1 i dim = (TPME.run I p₂ f₂ meshq).2.1 i dim ∧
        (TPME.run I p₁ f₁ meshq).2.2.2 = (TPME.run I p₂ f₂ meshq).2.2.2) := by
  refine ⟨?_, ?_, ?_⟩
  · intro Nmax p f i dim hi
    refine ⟨?_, ?_, ?_, ?_⟩ <;>
      simp [ForceEwald.init_parameters_p, ForceEwald.init_parameters_f,
        TPME.init_p, TPME.init_f, hi]
  · intro I p₁ p₂ f₁ f₂ i dim hi
    constructor
    · simp only [ForceEwald.compute, ForceEwald.calc_Uself,
        ForceEwald.init_parameters_p, hi, if_true]
    · simp only [ForceEwald.compute, ForceEwald.init_parameters_f, hi, if_true]
  · intro I meshq p₁ p₂ f₁ f₂ i dim hi
    refine ⟨?_, ?_, ?_⟩
    · simp only [TPME.run, self_energy_fst, TPME.init_p, hi, if_true]
    · simp only [TPME.run, TPME.init_f, hi, if_true]
    · simp only [TPME.run, self_energy_snd]

/-- Witness for C10 at concrete inputs (resident particle `0`, component
`0`, two different entry states `3`/`4` for the arrays). -/
theorem c10_entry_values_do_not_affect_results_witness :
    (ForceEwald.init_parameters_p 1 (fun _ => 7) 0 = 0 ∧
      ForceEwald.init_parameters_f 1 (fun _ _ => 7) 0 0 = 0 ∧
      TPME.init_p 1 (fun _ => 7) 0 = 0 ∧ TPME.init_f 1 (fun _ _ => 7) 0 0 = 0) ∧
    ((ForceEwald.compute ewaldIn0 (fun _ => 3) (fun _ _ => 3)).1 0 =
        (ForceEwald.compute ewaldIn0 (fun _ => 4) (fun _ _ => 4)).1 0 ∧
      (ForceEwald.compute ewaldIn0 (fun _ => 3) (fun _ _ => 3)).2 0 0 =
        (ForceEwald.compute ewaldIn0 (fun _ => 4) (fun _ _ => 4)).2 0 0) ∧
    ((TPME.run tpmeIn0 (fun _ => 3) (fun _ _ => 3) (fun _ => 0)).1 0 =
        (TPME.run tpmeIn0 (fun _ => 4) (fun _ _ => 4) (fun _ => 0)).1 0 ∧
      (TPME.run tpmeIn0 (fun _ => 3) (fun _ _ => 3) (fun _ => 0)).2.1 0 0 =
        (TPME.run tpmeIn0 (fun _ => 4) (fun _ _ => 4) (fun _ => 0)).2.1 0 0 ∧
      (TPME.run tpmeIn0 (fun _ => 3) (fun _ _ => 3) (fun _ => 0)).2.2.2 =
        (TPME.run tpmeIn0 (fun _ => 4) (fun _ _ => 4) (fun _ => 0)).2.2.2) :=
  ⟨c10_entry_values_do_not_affect_results.1 1 (fun _ => 7) (fun _ _ => 7) 0 0
      (by decide),
    c10_entry_values_do_not_affect_results.2.1 ewaldIn0 (fun _ => 3) (fun _ => 4)
      (fun _ _ => 3) (fun _ _ => 4) 0 0 (by decide),
    c10_entry_values_do_not_affect_results.2.2 tpmeIn0 (fun _ => 0) (fun _ => 3)
      (fun _ => 4) (fun _ _ => 3) (fun _ _ => 4) 0 0 (by decide)⟩

/-- The function `spread_contrib` factors as charge times the product of the three
per-axis guarded weights. -/
theorem spread_contrib_factor (s mx my mz rx ry rz qp : ℚ) :
    TPME.spread_contrib s mx my mz rx ry rz qp =
      qp * TPME.axis_weight s rx mx * TPME.axis_weight s ry my *
        TPME.axis_weight s rz mz := by
  simp only [TPME.spread_contrib, TPME.axis_weight]
  by_cases hx : TPME.spread_axis_dist mx rx ≤ 2 * s <;>
    by_cases hy : TPME.spread_axis_dist my ry ≤ 2 * s <;>
      by_cases hz : TPME.spread_axis_dist mz rz ≤ 2 * s <;>
        simp [hx, hy, hz]

/-- When both periodic images of the particle are farther than two spacings
from the mesh point, the guarded axis weight only sees the plain distance. -/
theorem axis_weight_plain (s : ℚ) (hs : 0 < s) (m r : ℚ)
    (h1 : 2 * s < |m - (r + 1)|) (h2 : 2 * s < |m - (r - 1)|) :
    TPME.axis_weight s r m =
      if |m - r| ≤ 2 * s then TPME.oneDspline (2 - |m - r| / s) else 0 := by
  unfold TPME.axis_weight TPME.spread_axis_dist
  by_cases ha : |m - r| ≤ 2 * s
  · rw [min_eq_left (le_trans ha (le_of_lt h1)),
      min_eq_left (le_trans ha (le_of_lt h2))]
  · have hmin : ¬ (min (min |m - r| |m - (r + 1)|) |m - (r - 1)| ≤ 2 * s) := by
      rw [not_le, lt_min_iff, lt_min_iff]
      exact ⟨⟨not_le.mp ha, h1⟩, h2⟩
    rw [if_neg hmin, if_neg ha]

/-- B-spline partition of unity along one axis: for a particle at fractional
position `u` between interior mesh points `n` and `n+1` of a mesh with `M`
points spanning the unit domain (`M*s = 1`), the guarded spreading weights
summed over all mesh points equal one. -/
theorem axis_weight_partition_of_unity (s : ℚ) (hs : 0 < s) (M n : ℕ) (u : ℚ)
    (hM : (M : ℚ) * s = 1) (hu0 : 0 ≤ u) (hu1 : u < 1)
    (hn2 : 2 ≤ n) (hnM : n + 3 ≤ M) :
    ∑ i in Finset.range M,
      TPME.axis_weight s (((n : ℚ) + u) * s) ((i : ℚ) * s) = 1 := by
  have hsne : s ≠ 0 := ne_of_gt hs
  have hn2q : (2 : ℚ) ≤ (n : ℚ) := by exact_mod_cast hn2
  have hnMq : (n : ℚ) + 3 ≤ (M : ℚ) := by exact_mod_cast hnM
  have hstep : ∀ i ∈ Finset.range M,
      TPME.axis_weight s (((n : ℚ) + u) * s) ((i : ℚ) * s) =
        (if |(i : ℚ) - ((n : ℚ) + u)| ≤ 2 then
          TPME.oneDspline (2 - |(i : ℚ) - ((n : ℚ) + u)|) else 0) := by
    intro i hi
    have hiM : i < M := Finset.mem_range.mp hi
    have hiMq : (i : ℚ) ≤ (M : ℚ) - 1 := by
      have : (i : ℚ) + 1 ≤ (M : ℚ) := by exact_mod_cast hiM
      linarith
    have hiq : (0 : ℚ) ≤ (i : ℚ) := Nat.cast_nonneg i
    have h1 : 2 * s < |(i : ℚ) * s - (((n : ℚ) + u) * s + 1)| := by
      have he : (i : ℚ) * s - (((n : ℚ) + u) * s + 1) =
          -(((M : ℚ) + (n : ℚ) + u - (i : ℚ)) * s) := by
        rw [← hM]; ring
      rw [he, abs_neg, abs_of_nonneg (by nlinarith)]
      nlinarith
    have h2 : 2 * s < |(i : ℚ) * s - (((n : ℚ) + u) * s - 1)| := by
      have he : (i : ℚ) * s - (((n : ℚ) + u) * s - 1) =
          ((M : ℚ) + (i : ℚ) - (n : ℚ) - u) * s := by
        rw [← hM]; ring
      rw [he, abs_of_nonneg (by nlinarith)]
      nlinarith
    rw [axis_weight_plain s hs _ _ h1 h2]
    have he : (i : ℚ) * s - ((n : ℚ) + u) * s = ((i : ℚ) - ((n : ℚ) + u)) * s := by
      ring
    rw [he, abs_mul, abs_of_pos hs, mul_div_cancel_right₀ _ hsne]
    by_cases hA : |(i : ℚ) - ((n : ℚ) + u)| ≤ 2
    · rw [if_pos (mul_le_mul_of_nonneg_right hA hs.le), if_pos hA]
    · rw [if_neg (fun hc => hA ((mul_le_mul_right hs).mp hc)), if_neg hA]
  rw [Finset.sum_congr rfl hstep]
  have hsub : Finset.Icc (n - 2) (n + 2) ⊆ Finset.range M := by
    intro i hi
    rw [Finset.mem_Icc] at hi
    rw [Finset.mem_range]
    omega
  have hvan : ∀ i ∈ Finset.range M, i ∉ Finset.Icc (n - 2) (n + 2) →
      (if |(i : ℚ) - ((n : ℚ) + u)| ≤ 2 then
        TPME.oneDspline (2 - |(i : ℚ) - ((n : ℚ) + u)|) else 0) = 0 := by
    intro i _ hi
    rw [Finset.mem_Icc] at hi
    rw [if_neg (not_le.mpr ?_)]
    rcases (by omega : i + 3 ≤ n ∨ n + 3 ≤ i) with hc | hc
    · have hcq : (i : ℚ) + 3 ≤ (n : ℚ) := by exact_mod_cast hc
      rw [abs_sub_comm, abs_of_nonneg (by linarith)]
      linarith
    · have hcq : (n : ℚ) + 3 ≤ (i : ℚ) := by exact_mod_cast hc
      rw [abs_of_nonneg (by linarith)]
      linarith
  rw [← Finset.sum_subset hsub hvan]
  have hIcc : Finset.Icc (n - 2) (n + 2) = {n - 2, n - 1, n, n + 1, n + 2} := by
    ext m
    simp only [Finset.mem_Icc, Finset.mem_insert, Finset.mem_singleton]
    omega
  rw [hIcc,
    Finset.sum_insert (by simp only [Finset.mem_insert, Finset.mem_singleton]; omega),
    Finset.sum_insert (by simp only [Finset.mem_insert, Finset.mem_singleton]; omega),
    Finset.sum_insert (by simp only [Finset.mem_insert, Finset.mem_singleton]; omega),
    Finset.sum_insert (by simp only [Finset.mem_singleton]; omega),
    Finset.sum_singleton]
  have e1 : ((n - 2 : ℕ) : ℚ) = (n : ℚ) - 2 := by
    rw [Nat.cast_sub hn2]; norm_num
  have e2 : ((n - 1 : ℕ) : ℚ) = (n : ℚ) - 1 := by
    rw [Nat.cast_sub (by omega)]; norm_num
  have e3 : ((n + 1 : ℕ) : ℚ) = (n : ℚ) + 1 := by push_cast; ring
  have e4 : ((n + 2 : ℕ) : ℚ) = (n : ℚ) + 2 := by push_cast; ring
  rw [e1, e2, e3, e4]
  have a1 : |((n : ℚ) - 2) - ((n : ℚ) + u)| = 2 + u := by
    rw [show ((n : ℚ) - 2) - ((n : ℚ) + u) = -(2 + u) by ring, abs_neg,
      abs_of_nonneg (by linarith)]
  have a2 : |((n : ℚ) - 1) - ((n : ℚ) + u)| = 1 + u := by
    rw [show ((n : ℚ) - 1) - ((n : ℚ) + u) = -(1 + u) by ring, abs_neg,
      abs_of_nonneg (by linarith)]
  have a3 : |(n : ℚ) - ((n : ℚ) + u)| = u := by
    rw [show (n : ℚ) - ((n : ℚ) + u) = -u by ring, abs_neg, abs_of_nonneg hu0]
  have a4 : |((n : ℚ) + 1) - ((n : ℚ) + u)| = 1 - u := by
    rw [show ((n : ℚ) + 1) - ((n : ℚ) + u) = 1 - u by ring,
      abs_of_nonneg (by linarith)]
  have a5 : |((n : ℚ) + 2) - ((n : ℚ) + u)| = 2 - u := by
    rw [show ((n : ℚ) + 2) - ((n : ℚ) + u) = 2 - u by ring,
      abs_of_nonneg (by linarith)]
  rw [a1, a2, a3, a4, a5]
  have T1 : (if 2 + u ≤ 2 then TPME.oneDspline (2 - (2 + u)) else 0) = 0 := by
    by_cases h : 2 + u ≤ 2
    · rw [if_pos h]
      have hz : u = 0 := le_antisymm (by linarith) hu0
      subst hz
      norm_num [TPME.oneDspline]
    · rw [if_neg h]
  rw [T1, if_pos (by linarith : 1 + u ≤ 2), if_pos (by linarith : u ≤ 2),
    if_pos (by linarith : 1 - u ≤ 2), if_pos (by linarith : 2 - u ≤ 2)]
  rcases eq_or_lt_of_le hu0 with hu | hu
  · rw [← hu]
    norm_num [TPME.oneDspline]
  · have b2 : TPME.oneDspline (2 - (1 + u)) =
        1 / 6 * (1 - u) * (1 - u) * (1 - u) := by
      rw [show (2 : ℚ) - (1 + u) = 1 - u by ring]
      simp only [TPME.oneDspline]
      rw [if_pos ⟨by linarith, by linarith⟩]
    have b3 : TPME.oneDspline (2 - u) =
        -(1 / 2) * (2 - u) * (2 - u) * (2 - u) + 2 * ((2 - u) * (2 - u)) -
          2 * (2 - u) + 2 / 3 := by
      simp only [TPME.oneDspline]
      rw [if_neg (by rintro ⟨-, h⟩; linarith), if_pos ⟨by linarith, by linarith⟩]
      ring
    have b4 : TPME.oneDspline (2 - (1 - u)) =
        -(1 / 2) * (1 + u) * (1 + u) * (1 + u) + 2 * ((1 + u) * (1 + u)) -
          2 * (1 + u) + 2 / 3 := by
      rw [show (2 : ℚ) - (1 - u) = 1 + u by ring]
      simp only [TPME.oneDspline]
      rw [if_neg (by rintro ⟨-, h⟩; linarith), if_pos ⟨by linarith, by linarith⟩]
      ring
    have b5 : TPME.oneDspline (2 - (2 - u)) = 1 / 6 * u * u * u := by
      rw [show (2 : ℚ) - (2 - u) = u by ring]
      simp only [TPME.oneDspline]
      rw [if_pos ⟨hu0, hu1⟩]
    rw [b2, b3, b4, b5]
    ring

/-- Spreading one particle strictly inside the domain deposits exactly its
charge: the triple sum of `spread_contrib` over the whole cubic mesh is
`qp`. -/
theorem spread_contrib_mesh_sum (s : ℚ) (M : ℕ) (rx ry rz qp : ℚ)
    (hs : 0 < s) (hM : (M : ℚ) * s = 1)
    (hx : TPME.interior_coord M s rx) (hy : TPME.interior_coord M s ry)
    (hz : TPME.interior_coord M s rz) :
    ∑ gx in Finset.range M, ∑ gy in Finset.range M, ∑ gz in Finset.range M,
      TPME.spread_contrib s ((gx : ℚ) * s) ((gy : ℚ) * s) ((gz : ℚ) * s)
        rx ry rz qp = qp := by
  obtain ⟨nx, ux, hrx, hux0, hux1, hnx2, hnxM⟩ := hx
  obtain ⟨ny, uy, hry, huy0, huy1, hny2, hnyM⟩ := hy
  obtain ⟨nz, uz, hrz, huz0, huz1, hnz2, hnzM⟩ := hz
  have Hx : ∑ gx in Finset.range M, TPME.axis_weight s rx ((gx : ℚ) * s) = 1 := by
    rw [hrx]
    exact axis_weight_partition_of_unity s hs M nx ux hM hux0 hux1 hnx2 hnxM
  have Hy : ∑ gy in Finset.range M, TPME.axis_weight s ry ((gy : ℚ) * s) = 1 := by
    rw [hry]
    exact axis_weight_partition_of_unity s hs M ny uy hM huy0 huy1 hny2 hnyM
  have Hz : ∑ gz in Finset.range M, TPME.axis_weight s rz ((gz : ℚ) * s) = 1 := by
    rw [hrz]
    exact axis_weight_partition_of_unity s hs M nz uz hM huz0 huz1 hnz2 hnzM
  have hrow : ∀ gx ∈ Finset.range M,
      ∑ gy in Finset.range M, ∑ gz in Finset.range M,
        TPME.spread_contrib s ((gx : ℚ) * s) ((gy : ℚ) * s) ((gz : ℚ) * s)
          rx ry rz qp = qp * TPME.axis_weight s rx ((gx : ℚ) * s) := by
    intro gx _
    have hcol : ∀ gy ∈ Finset.range M,
        ∑ gz in Finset.range M,
          TPME.spread_contrib s ((gx : ℚ) * s) ((gy : ℚ) * s) ((gz : ℚ) * s)
            rx ry rz qp =
          qp * TPME.axis_weight s rx ((gx : ℚ) * s) *
            TPME.axis_weight s ry ((gy : ℚ) * s) := by
      intro gy _
      simp only [spread_contrib_factor]
      rw [← Finset.mul_sum, Hz, mul_one]
    rw [Finset.sum_congr rfl hcol, ← Finset.mul_sum, Hy, mul_one]
  rw [Finset.sum_congr rfl hrow, ← Finset.mul_sum, Hx, mul_one]

/-- C8: charge spreading conserves total charge.  For any list of particles
`(rx, ry, rz, q)` placed strictly inside the unit domain away from the
periodic wrap edge cases (at least two mesh spacings from each edge), on a
cubic mesh of `M` points per axis at positions `i*s` with `M*s = 1`: the
per-particle spreading weights summed over the mesh equal one (B-spline
partition of unity), and the sum over all mesh points of the charge
accumulated by the spreading stage equals the sum of the particle charges. -/
theorem c8_charge_spreading_conserves_charge (s : ℚ) (M : ℕ)
    (parts : List (ℚ × ℚ × ℚ × ℚ)) (hs : 0 < s) (hM : (M : ℚ) * s = 1)
    (hparts : ∀ pt ∈ parts, TPME.interior_coord M s pt.1 ∧
      TPME.interior_coord M s pt.2.1 ∧ TPME.interior_coord M s pt.2.2.1) :
    (∀ pt ∈ parts,
      ∑ gx in Finset.range M, ∑ gy in Finset.range M, ∑ gz in Finset.range M,
        TPME.spread_contrib s ((gx : ℚ) * s) ((gy : ℚ) * s) ((gz : ℚ) * s)
          pt.1 pt.2.1 pt.2.2.1 1 = 1) ∧
    (∑ gx in Finset.range M, ∑ gy in Finset.range M, ∑ gz in Finset.range M,
        (parts.map fun pt =>
          TPME.spread_contrib s ((gx : ℚ) * s) ((gy : ℚ) * s) ((gz : ℚ) * s)
            pt.1 pt.2.1 pt.2.2.1 pt.2.2.2).sum) =
      (parts.map fun pt => pt.2.2.2).sum := by
  constructor
  · intro pt hpt
    obtain ⟨hx, hy, hz⟩ := hparts pt hpt
    exact spread_contrib_mesh_sum s M pt.1 pt.2.1 pt.2.2.1 1 hs hM hx hy hz
  · induction parts with
    | nil => simp
    | cons pt parts ih =>
      simp only [List.map_cons, List.sum_cons, Finset.sum_add_distrib]
      obtain ⟨hx, hy, hz⟩ := hparts pt (List.mem_cons_self pt parts)
      rw [spread_contrib_mesh_sum s M pt.1 pt.2.1 pt.2.2.1 pt.2.2.2 hs hM hx hy hz,
        ih (fun q hq => hparts q (List.mem_cons_of_mem pt hq))]

/-- Witness for C8: an 8-point-per-axis mesh with spacing `1/8` and one
particle of charge `3` at `(5/16, 5/16, 5/16)` (between mesh points `2` and
`3` on each axis, fractional offset `1/2`). -/
theorem c8_charge_spreading_conserves_charge_witness :
    (∀ pt ∈ [((5 : ℚ)/16, (5 : ℚ)/16, (5 : ℚ)/16, (3 : ℚ))],
      ∑ gx in Finset.range 8, ∑ gy in Finset.range 8, ∑ gz in Finset.range 8,
        TPME.spread_contrib (1/8) ((gx : ℚ) * (1/8)) ((gy : ℚ) * (1/8))
          ((gz : ℚ) * (1/8)) pt.1 pt.2.1 pt.2.2.1 1 = 1) ∧
    (∑ gx in Finset.range 8, ∑ gy in Finset.range 8, ∑ gz in Finset.range 8,
        (([((5 : ℚ)/16, (5 : ℚ)/16, (5 : ℚ)/16, (3 : ℚ))].map fun pt =>
          TPME.spread_contrib (1/8) ((gx : ℚ) * (1/8)) ((gy : ℚ) * (1/8))
            ((gz : ℚ) * (1/8)) pt.1 pt.2.1 pt.2.2.1 pt.2.2.2).sum)) =
      (([((5 : ℚ)/16, (5 : ℚ)/16, (5 : ℚ)/16, (3 : ℚ))].map
        fun pt => pt.2.2.2).sum) :=
  c8_charge_spreading_conserves_charge (1/8) 8
    [((5 : ℚ)/16, (5 : ℚ)/16, (5 : ℚ)/16, (3 : ℚ))] (by norm_num) (by norm_num)
    (by
      intro pt hpt
      rw [List.mem_singleton] at hpt
      subst hpt
      refine ⟨⟨2, 1/2, by norm_num, by norm_num, by norm_num, by norm_num, by norm_num⟩,
        ⟨2, 1/2, by norm_num, by norm_num, by norm_num, by norm_num, by norm_num⟩,
        ⟨2, 1/2, by norm_num, by norm_num, by norm_num, by norm_num, by norm_num⟩⟩)

/-- The positive-part cube is differentiable everywhere, with derivative
three times the positive-part square. -/
theorem hasDerivAt_maxcube (x : ℝ) :
    HasDerivAt (fun y : ℝ => (max y 0) ^ 3) (3 * (max x 0) ^ 2) x := by
  rcases lt_trichotomy x 0 with hx | hx | hx
  · have hev : (fun y : ℝ => (max y 0) ^ 3) =ᶠ[nhds x] fun _ => (0 : ℝ) := by
      filter_upwards [Iio_mem_nhds hx] with y hy
      rw [max_eq_right (le_of_lt hy), zero_pow (by norm_num)]
    have h0 : HasDerivAt (fun _ : ℝ => (0 : ℝ)) 0 x := hasDerivAt_const x 0
    have hres := h0.congr_of_eventuallyEq hev
    have hval : (3 : ℝ) * (max x 0) ^ 2 = 0 := by
      rw [max_eq_right (le_of_lt hx)]
      norm_num
    rw [hval]
    exact hres
  · subst hx
    rw [hasDerivAt_iff_tendsto_slope]
    have hval : (3 : ℝ) * (max 0 0) ^ 2 = 0 := by norm_num
    rw [hval]
    have hb : ∀ y : ℝ, ‖slope (fun y : ℝ => (max y 0) ^ 3) 0 y‖ ≤ y ^ 2 := by
      intro y
      rcases le_or_lt y 0 with hy | hy
      · have hz : slope (fun y : ℝ => (max y 0) ^ 3) 0 y = 0 := by
          rw [slope_def_field, max_eq_right hy, max_self]
          norm_num
        rw [hz, norm_zero]
        positivity
      · rw [slope_def_field, max_eq_left (le_of_lt hy), max_self,
          zero_pow (by norm_num : (3 : ℕ) ≠ 0), sub_zero, sub_zero,
          show y ^ 3 = y ^ 2 * y by ring, mul_div_cancel_right₀ _ (ne_of_gt hy)]
        rw [Real.norm_eq_abs, abs_of_nonneg (sq_nonneg y)]
    have hg : Filter.Tendsto (fun y : ℝ => y ^ 2) (nhdsWithin (0 : ℝ) ({(0 : ℝ)}ᶜ))
        (nhds 0) := by
      have h := (continuous_pow 2).tendsto (0 : ℝ)
      have h0 : ((0 : ℝ) ^ 2 : ℝ) = 0 := by norm_num
      rw [h0] at h
      exact h.mono_left nhdsWithin_le_nhds
    exact squeeze_zero_norm hb hg
  · have hev : (fun y : ℝ => (max y 0) ^ 3) =ᶠ[nhds x] fun y => y ^ 3 := by
      filter_upwards [Ioi_mem_nhds hx] with y hy
      rw [max_eq_left (le_of_lt hy)]
    have hp : HasDerivAt (fun y : ℝ => y ^ 3) (3 * x ^ 2) x := by
      have := hasDerivAt_pow 3 x
      norm_num at this
      exact this
    have hres := hp.congr_of_eventuallyEq hev
    rw [max_eq_left (le_of_lt hx)]
    exact hres

/-- Shifted positive-part cube derivative (shift by addition). -/
theorem hasDerivAt_maxcube_add (c x : ℝ) :
    HasDerivAt (fun y : ℝ => (max (y + c) 0) ^ 3) (3 * (max (x + c) 0) ^ 2) x := by
  have hinner : HasDerivAt (fun y : ℝ => y + c) 1 x := (hasDerivAt_id x).add_const c
  have houter := hasDerivAt_maxcube (x + c)
  have := houter.comp x hinner
  simpa using this

/-- Shifted positive-part cube derivative (shift by subtraction). -/
theorem hasDerivAt_maxcube_sub (c x : ℝ) :
    HasDerivAt (fun y : ℝ => (max (y - c) 0) ^ 3) (3 * (max (x - c) 0) ^ 2) x := by
  simpa [sub_eq_add_neg] using hasDerivAt_maxcube_add (-c) x

/-- The function `B4` is differentiable everywhere with derivative `B4d`. -/
theorem hasDerivAt_B4 (u : ℝ) : HasDerivAt B4 (B4d u) u := by
  have h2 := hasDerivAt_maxcube_add 2 u
  have h1 := hasDerivAt_maxcube_add 1 u
  have h0 := hasDerivAt_maxcube u
  have hm1 := hasDerivAt_maxcube_sub 1 u
  have hm2 := hasDerivAt_maxcube_sub 2 u
  have hsum := ((((h2.sub (h1.const_mul 4)).add (h0.const_mul 6)).sub
    (hm1.const_mul 4)).add hm2).div_const 6
  have hfun : (fun y : ℝ => ((max (y + 2) 0) ^ 3 - 4 * (max (y + 1) 0) ^ 3 +
      6 * (max y 0) ^ 3 - 4 * (max (y - 1) 0) ^ 3 + (max (y - 2) 0) ^ 3) / 6) = B4 := by
    funext y
    rw [B4]
  rw [hfun] at hsum
  have hval : (3 * (max (u + 2) 0) ^ 2 - 4 * (3 * (max (u + 1) 0) ^ 2) +
      6 * (3 * (max u 0) ^ 2) - 4 * (3 * (max (u - 1) 0) ^ 2) +
      3 * (max (u - 2) 0) ^ 2) / 6 = B4d u := by
    rw [B4d]
    ring
  rw [hval] at hsum
  exact hsum

/-- The spreading weight `oneDsplineR (2 - |u|)` equals `B4 u` everywhere. -/
theorem oneDsplineR_eq_B4 (u : ℝ) : TPME.oneDsplineR (2 - |u|) = B4 u := by
  rcases lt_or_le u (-2) with h1 | h1
  · rw [show |u| = -u from abs_of_neg (by linarith)]
    simp only [TPME.oneDsplineR]
    rw [if_neg (by rintro ⟨h, -⟩; linarith), if_neg (by rintro ⟨h, -⟩; linarith)]
    rw [B4, max_eq_right (by linarith : u + 2 ≤ 0), max_eq_right (by linarith : u + 1 ≤ 0),
      max_eq_right (by linarith : u ≤ 0), max_eq_right (by linarith : u - 1 ≤ 0),
      max_eq_right (by linarith : u - 2 ≤ 0)]
    norm_num
  rcases lt_or_le u (-1) with h2 | h2
  · rw [show |u| = -u from abs_of_neg (by linarith)]
    simp only [TPME.oneDsplineR]
    rw [if_pos ⟨by linarith, by linarith⟩]
    rw [B4, max_eq_left (by linarith : (0 : ℝ) ≤ u + 2),
      max_eq_right (by linarith : u + 1 ≤ 0), max_eq_right (by linarith : u ≤ 0),
      max_eq_right (by linarith : u - 1 ≤ 0), max_eq_right (by linarith : u - 2 ≤ 0)]
    ring
  rcases lt_or_le u 0 with h3 | h3
  · rw [show |u| = -u from abs_of_neg (by linarith)]
    simp only [TPME.oneDsplineR]
    rw [if_neg (by rintro ⟨-, h⟩; linarith), if_pos ⟨by linarith, by linarith⟩]
    rw [B4, max_eq_left (by linarith : (0 : ℝ) ≤ u + 2),
      max_eq_left (by linarith : (0 : ℝ) ≤ u + 1), max_eq_right (by linarith : u ≤ 0),
      max_eq_right (by linarith : u - 1 ≤ 0), max_eq_right (by linarith : u - 2 ≤ 0)]
    ring
  rcases le_or_lt u 1 with h4 | h4
  · rw [abs_of_nonneg h3]
    simp only [TPME.oneDsplineR]
    rw [if_neg (by rintro ⟨-, h⟩; linarith), if_pos ⟨by linarith, by linarith⟩]
    rw [B4, max_eq_left (by linarith : (0 : ℝ) ≤ u + 2),
      max_eq_left (by linarith : (0 : ℝ) ≤ u + 1), max_eq_left h3,
      max_eq_right (by linarith : u - 1 ≤ 0), max_eq_right (by linarith : u - 2 ≤ 0)]
    ring
  rcases le_or_lt u 2 with h5 | h5
  · rw [abs_of_nonneg (by linarith)]
    simp only [TPME.oneDsplineR]
    rw [if_pos ⟨by linarith, by linarith⟩]
    rw [B4, max_eq_left (by linarith : (0 : ℝ) ≤ u + 2),
      max_eq_left (by linarith : (0 : ℝ) ≤ u + 1), max_eq_left (by linarith),
      max_eq_left (by linarith : (0 : ℝ) ≤ u - 1), max_eq_right (by linarith : u - 2 ≤ 0)]
    ring
  · rw [abs_of_nonneg (by linarith)]
    simp only [TPME.oneDsplineR]
    rw [if_neg (by rintro ⟨h, -⟩; linarith), if_neg (by rintro ⟨h, -⟩; linarith)]
    rw [B4, max_eq_left (by linarith : (0 : ℝ) ≤ u + 2),
      max_eq_left (by linarith : (0 : ℝ) ≤ u + 1), max_eq_left (by linarith),
      max_eq_left (by linarith : (0 : ℝ) ≤ u - 1), max_eq_left (by linarith : (0 : ℝ) ≤ u - 2)]
    ring

/-- The source spline derivative equals the *negative* of `B4d` everywhere. -/
theorem oneDsplinederivR_eq_neg_B4d (u : ℝ) : TPME.oneDsplinederivR u = -B4d u := by
  rcases lt_or_le u (-2) with h1 | h1
  · simp only [TPME.oneDsplinederivR]
    rw [show |u| = -u from abs_of_neg (by linarith)]
    rw [if_neg (by rintro ⟨h, -⟩; linarith), if_neg (by rintro ⟨h, -⟩; linarith)]
    rw [B4d, max_eq_right (by linarith : u + 2 ≤ 0), max_eq_right (by linarith : u + 1 ≤ 0),
      max_eq_right (by linarith : u ≤ 0), max_eq_right (by linarith : u - 1 ≤ 0),
      max_eq_right (by linarith : u - 2 ≤ 0)]
    norm_num
  rcases lt_or_le u (-1) with h2 | h2
  · simp only [TPME.oneDsplinederivR]
    rw [show |u| = -u from abs_of_neg (by linarith), if_pos (by linarith : u < 0)]
    rw [if_pos ⟨by linarith, by linarith⟩]
    rw [B4d, max_eq_left (by linarith : (0 : ℝ) ≤ u + 2),
      max_eq_right (by linarith : u + 1 ≤ 0), max_eq_right (by linarith : u ≤ 0),
      max_eq_right (by linarith : u - 1 ≤ 0), max_eq_right (by linarith : u - 2 ≤ 0)]
    ring
  rcases lt_or_le u 0 with h3 | h3
  · simp only [TPME.oneDsplinederivR]
    rw [show |u| = -u from abs_of_neg (by linarith), if_pos (by linarith : u < 0)]
    rw [if_neg (by rintro ⟨-, h⟩; linarith), if_pos ⟨by linarith, by linarith⟩]
    rw [B4d, max_eq_left (by linarith : (0 : ℝ) ≤ u + 2),
      max_eq_left (by linarith : (0 : ℝ) ≤ u + 1), max_eq_right (by linarith : u ≤ 0),
      max_eq_right (by linarith : u - 1 ≤ 0), max_eq_right (by linarith : u - 2 ≤ 0)]
    ring
  rcases le_or_lt u 1 with h4 | h4
  · simp only [TPME.oneDsplinederivR]
    rw [abs_of_nonneg h3, if_neg (not_lt.mpr h3)]
    rw [if_neg (by rintro ⟨-, h⟩; linarith), if_pos ⟨by linarith, by linarith⟩]
    rw [B4d, max_eq_left (by linarith : (0 : ℝ) ≤ u + 2),
      max_eq_left (by linarith : (0 : ℝ) ≤ u + 1), max_eq_left h3,
      max_eq_right (by linarith : u - 1 ≤ 0), max_eq_right (by linarith : u - 2 ≤ 0)]
    ring
  rcases le_or_lt u 2 with h5 | h5
  · simp only [TPME.oneDsplinederivR]
    rw [abs_of_nonneg (by linarith), if_neg (not_lt.mpr (by linarith))]
    rw [if_pos ⟨by linarith, by linarith⟩]
    rw [B4d, max_eq_left (by linarith : (0 : ℝ) ≤ u + 2),
      max_eq_left (by linarith : (0 : ℝ) ≤ u + 1), max_eq_left (by linarith),
      max_eq_left (by linarith : (0 : ℝ) ≤ u - 1), max_eq_right (by linarith : u - 2 ≤ 0)]
    ring
  · simp only [TPME.oneDsplinederivR]
    rw [abs_of_nonneg (by linarith), if_neg (not_lt.mpr (by linarith))]
    rw [if_neg (by rintro ⟨h, -⟩; linarith), if_neg (by rintro ⟨h, -⟩; linarith)]
    rw [B4d, max_eq_left (by linarith : (0 : ℝ) ≤ u + 2),
      max_eq_left (by linarith : (0 : ℝ) ≤ u + 1), max_eq_left (by linarith),
      max_eq_left (by linarith : (0 : ℝ) ≤ u - 1), max_eq_left (by linarith : (0 : ℝ) ≤ u - 2)]
    ring

/-- The source spline derivative evaluates to `5/8` at `1/2`. -/
theorem oneDsplinederivR_half : TPME.oneDsplinederivR (1 / 2) = 5 / 8 := by
  simp only [TPME.oneDsplinederivR]
  rw [show |(1 / 2 : ℝ)| = 1 / 2 from abs_of_pos (by norm_num),
    if_neg (by norm_num : ¬ ((1 / 2 : ℝ) < 0)),
    if_neg (by rintro ⟨-, h⟩; norm_num at h),
    if_pos ⟨by norm_num, by norm_num⟩]
  norm_num

/-- Counterexample to C9 as stated: at `u = 1/2` the analytic derivative of
the spreading weight `oneDspline(2 - |u|)` is `-5/8`, while
`oneDsplinederiv(1/2) = 5/8`; since derivatives are unique,
`oneDsplinederiv(1/2)` is *not* the analytic derivative there (it is its
negation). -/
theorem c9_counterexample_derivative_sign :
    HasDerivAt (fun v : ℝ => TPME.oneDsplineR (2 - |v|)) (-(5 / 8)) (1 / 2) ∧
    TPME.oneDsplinederivR (1 / 2) = 5 / 8 ∧
    ¬ HasDerivAt (fun v : ℝ => TPME.oneDsplineR (2 - |v|))
      (TPME.oneDsplinederivR (1 / 2)) (1 / 2) := by
  have hfun : (fun v : ℝ => TPME.oneDsplineR (2 - |v|)) = B4 :=
    funext oneDsplineR_eq_B4
  have hB4d : B4d (1 / 2) = -(5 / 8) := by
    rw [B4d, max_eq_left (by norm_num : (0 : ℝ) ≤ 1 / 2 + 2),
      max_eq_left (by norm_num : (0 : ℝ) ≤ 1 / 2 + 1),
      max_eq_left (by norm_num : (0 : ℝ) ≤ (1 / 2 : ℝ)),
      max_eq_right (by norm_num : (1 / 2 : ℝ) - 1 ≤ 0),
      max_eq_right (by norm_num : (1 / 2 : ℝ) - 2 ≤ 0)]
    norm_num
  have hderiv : HasDerivAt (fun v : ℝ => TPME.oneDsplineR (2 - |v|)) (-(5 / 8))
      (1 / 2) := by
    rw [hfun]
    have h := hasDerivAt_B4 (1 / 2)
    rw [hB4d] at h
    exact h
  refine ⟨hderiv, oneDsplinederivR_half, ?_⟩
  intro hcontra
  have := hcontra.unique hderiv
  rw [oneDsplinederivR_half] at this
  norm_num at this

/-- C9 as amended: `oneDsplinederiv` is antisymmetric under reflection of
its argument's sign, and on the support `|u| ≤ 2` it equals the *negative*
of the analytic derivative with respect to `u` of the spreading weight
`oneDspline(2 - |u|)` (the sign is folded into the kernel's force
direction). -/
theorem c9_splinederiv_antisymmetric_and_neg_derivative :
    (∀ v : ℝ, TPME.oneDsplinederivR (-v) = -TPME.oneDsplinederivR v) ∧
    ∀ u : ℝ, |u| ≤ 2 →
      HasDerivAt (fun v : ℝ => TPME.oneDsplineR (2 - |v|))
        (-TPME.oneDsplinederivR u) u := by
  constructor
  · intro v
    simp only [TPME.oneDsplinederivR, abs_neg]
    rcases lt_trichotomy v 0 with hv | hv | hv
    · rw [if_neg (by linarith : ¬ (-v < 0)), if_pos hv]
      split_ifs <;> ring
    · subst hv
      norm_num
    · rw [if_pos (by linarith : -v < 0), if_neg (not_lt.mpr hv.le)]
      split_ifs <;> ring
  · intro u _
    have hfun : (fun v : ℝ => TPME.oneDsplineR (2 - |v|)) = B4 :=
      funext oneDsplineR_eq_B4
    rw [hfun, oneDsplinederivR_eq_neg_B4d, neg_neg]
    exact hasDerivAt_B4 u

/-- Witness for the amended C9 at `v = 1` and `u = 1/2`. -/
theorem c9_splinederiv_antisymmetric_and_neg_derivative_witness :
    TPME.oneDsplinederivR (-1) = -TPME.oneDsplinederivR 1 ∧
    HasDerivAt (fun v : ℝ => TPME.oneDsplineR (2 - |v|))
      (-TPME.oneDsplinederivR (1 / 2)) (1 / 2) :=
  ⟨c9_splinederiv_antisymmetric_and_neg_derivative.1 1,
    c9_splinederiv_antisymmetric_and_neg_derivative.2 (1 / 2)
      (by rw [abs_of_pos (by norm_num : (0 : ℝ) < 1 / 2)]; norm_num)⟩
